import Mathlib

/-!
# Verification of the ppdire grid-search projection pursuit engine

Shallow embedding of `src/ppdire/ppdire.py` (class `ppdire`): the angular
grid generator, the plane optimizer `_gridplane`, the plane refiner
`_gridplane_2`, the pairwise dimension reducer with its outer convergence
loop, the deflation/extraction controller inside `fit`, and the `predict`
round trip.

Modelling conventions:
* double-precision floats are modelled by an arbitrary linear ordered
  field `α` in the executable definitions and by `ℝ` in the theorems.
  Trigonometric and square-root primitives (`np.cos`, `np.sin`,
  `np.sqrt`) are passed as function parameters `cosf sinf sqrtf : α → α`
  and instantiated with `Real.cos`, `Real.sin`, `Real.sqrt` in the
  theorems, keeping every definition computable;
* numpy arrays are lists; an `n × p` data matrix is a list of `p`
  columns, each a list of `n` entries; an `n × 2` block is a list of
  `n` row pairs;
* the projection index (`self.most.fit`) is an external plug-in
  (class docstring: user defined projection indices can be processed);
  it is an arbitrary function parameter `pindex : List α → α`.
-/

namespace Ppdire

/-! ## List and vector helpers -/

/-- Componentwise sum of two vectors (`numpy` `+` on equal-length arrays). -/
def vAdd {α : Type*} [Add α] (u v : List α) : List α := List.zipWith (· + ·) u v

/-- Componentwise difference of two vectors (`numpy` `-`). -/
def vSub {α : Type*} [Sub α] (u v : List α) : List α := List.zipWith (· - ·) u v

/-- Scalar multiple of a vector (`numpy` scalar `*`). -/
def vSmul {α : Type*} [Mul α] (c : α) (u : List α) : List α := u.map (c * ·)

/-- Inner product of two vectors (`np.dot` on equal-length 1-D arrays). -/
def dotL {α : Type*} [Mul α] [AddCommMonoid α] (u v : List α) : α :=
  (List.zipWith (· * ·) u v).sum

/-- `np.sum(np.square(u))`: the sum of squared entries. -/
def sumSq {α : Type*} [Mul α] [AddCommMonoid α] (u : List α) : α :=
  (u.map (fun x => x * x)).sum

/-- Column `j` of a matrix stored as a list of columns (`Z[:,j]`). -/
def colD {α : Type*} (Z : List (List α)) (j : ℕ) : List α := Z.getD j []

/-- Matrix–vector product `Z * a` for `Z` stored as a list of columns of
length `n`: the sum `Σⱼ aⱼ · Z[:,j]`. -/
def matVecCols {α : Type*} [Field α] (Z : List (List α)) (a : List α) (n : ℕ) : List α :=
  (List.range (min Z.length a.length)).foldl
    (fun acc j => vAdd acc (vSmul (a.getD j 0) (colD Z j)))
    (List.replicate n (0 : α))

/-- `np.max` of a list of scalars; `none` on the empty list (where numpy
raises `ValueError`). -/
def npMax {α : Type*} [LinearOrder α] : List α → Option α
  | [] => none
  | x :: xs => some (xs.foldl max x)

/-- Index of the first occurrence of `v`
(`np.where(meas == maximo)[0][0]`). The value is the list length when
`v` does not occur; in the source, `maximo` always occurs. -/
def firstIdxEq {α : Type*} [DecidableEq α] (v : α) : List α → ℕ
  | [] => 0
  | x :: xs => if x = v then 0 else firstIdxEq v xs + 1

/-- `np.linspace(a, b, n, endpoint)`: `n` evenly spaced samples starting
at `a`; the step is `(b-a)/(n-1)` when the endpoint is included and
`(b-a)/n` when it is excluded.  (For `n = 1` with endpoint the field
convention `x/0 = 0` makes this `[a]`, matching numpy.) -/
def linspace {α : Type*} [Field α] (a b : α) (n : ℕ) (endpoint : Bool) : List α :=
  (List.range n).map
    (fun i : ℕ => a + (i : α) * ((b - a) / (if endpoint then (n : α) - 1 else (n : α))))

/-! ## Angular grid generator and plane optimizer (`_gridplane`)

`_gridplane` (lines 104–192) regenerates the candidate matrix from the
class's `optrange` whenever a matrix `alphamat` keyword is supplied (the
`(alphamat != None).all()` guard is truthy for every matrix argument, so
the regeneration is unconditional on the calls made from `fit`), then
projects the data block onto each candidate, evaluates the projection
index on each projected score (squared when `square_pi` is set), and
returns the candidate attaining the first maximum together with that
maximum.  The `alphamat *= optmax` rescaling is guarded by
`optmax != 1`; since `1 * x = x` we apply it unconditionally. -/

/-- Candidate direction matrix
`np.matrix([np.cos(nangle), np.sin(nangle)]) * optmax` as a list of
columns, for `nangle = linspace a b ndir endpoint`. -/
def angleGrid {α : Type*} [Field α] (cosf sinf : α → α) (optmax a b : α)
    (ndir : ℕ) (endpoint : Bool) : List (α × α) :=
  (linspace a b ndir endpoint).map (fun θ => (optmax * cosf θ, optmax * sinf θ))

/-- Projection `X * w` of an `n × 2` block (list of row pairs) onto a
candidate direction: the score column `tj[:,i]`. -/
def projCol {α : Type*} [Field α] (X : List (α × α)) (w : α × α) : List α :=
  X.map (fun r => r.1 * w.1 + r.2 * w.2)

/-- The list `meas` of projection-index values over the candidates,
squared when `square_pi` is set. -/
def piMeas {α : Type*} [Field α] (pindex : List α → α) (squarePi : Bool)
    (X : List (α × α)) (cands : List (α × α)) : List α :=
  cands.map (fun w => let v := pindex (projCol X w); if squarePi then v * v else v)

/-- Selection step shared by `_gridplane` and `_gridplane_2`
(lines 179–183 resp. 270–274): `maximo = np.max(meas)`, `indmax` the
first index attaining it, and the winning candidate column. -/
def gridSelect {α : Type*} [LinearOrderedField α] (cands : List (α × α)) (meas : List α) :
    Option ((α × α) × α) :=
  match npMax meas with
  | none => none
  | some maximo => some (cands.getD (firstIdxEq maximo meas) (0, 0), maximo)

/-- `_gridplane`: grid search in a plane (source lines 104–192),
returning `(wi, maximo)`. -/
def gridplane {α : Type*} [LinearOrderedField α] (cosf sinf : α → α)
    (pindex : List α → α) (squarePi : Bool) (optmax a b : α) (ndir : ℕ)
    (X : List (α × α)) : Option ((α × α) × α) :=
  let cands := angleGrid cosf sinf optmax a b ndir false
  gridSelect cands (piMeas pindex squarePi X cands)

/-! ## Plane refiner (`_gridplane_2`)

`_gridplane_2` (lines 196–276) regenerates the candidate matrix on the
**closed** grid over the `min`-of-bounds sector cached by the coarse
pass, then rescales each candidate column by the divisor
`np.sqrt(1 + 2 * alphamat[0,:] * alphamat[1,:] * q[0])`
(`np.repeat(divisor, 2, 0)` divides both coordinates by the same
divisor).  The signature carries a `div` argument documented as the
"number of subsegments to divide angle into", but the body never reads
it; the scan length is `ndir`. -/

/-- Rescaled candidate columns `alpha1 = alphamat / divisor` of the
refiner. -/
def gridplane2Cands {α : Type*} [Field α] (cosf sinf sqrtf : α → α)
    (optmax a b q : α) (ndir : ℕ) : List (α × α) :=
  (angleGrid cosf sinf optmax a b ndir true).map
    (fun w =>
      let d := sqrtf (1 + 2 * (w.1 * w.2) * q)
      (w.1 / d, w.2 / d))

/-- `_gridplane_2`: refined grid search (source lines 196–276).  The
`div` parameter mirrors the source signature and, like the source body,
is unused. -/
def gridplane2 {α : Type*} [LinearOrderedField α] (cosf sinf sqrtf : α → α)
    (pindex : List α → α) (squarePi : Bool) (optmax a b q : α) (_div : ℕ)
    (ndir : ℕ) (X : List (α × α)) : Option ((α × α) × α) :=
  let cands := gridplane2Cands cosf sinf sqrtf optmax a b q ndir
  gridSelect cands (piMeas pindex squarePi X cands)

/-! ## Basic lemmas about the selection primitives -/

theorem le_foldl_max {α : Type*} [LinearOrder α] :
    ∀ (l : List α) (x : α), x ≤ l.foldl max x := by
  intro l
  induction l with
  | nil => intro x; exact le_refl x
  | cons b bs ih =>
      intro x
      exact le_trans (le_max_left x b) (ih (max x b))

theorem mem_le_foldl_max {α : Type*} [LinearOrder α] :
    ∀ (l : List α) (x a : α), a ∈ l → a ≤ l.foldl max x := by
  intro l
  induction l with
  | nil => intro x a ha; cases ha
  | cons b bs ih =>
      intro x a ha
      rcases List.mem_cons.mp ha with h | h
      · subst h
        exact le_trans (le_max_right x a) (le_foldl_max bs (max x a))
      · exact ih (max x b) a h

theorem foldl_max_mem {α : Type*} [LinearOrder α] :
    ∀ (l : List α) (x : α), l.foldl max x = x ∨ l.foldl max x ∈ l := by
  intro l
  induction l with
  | nil => intro x; exact Or.inl rfl
  | cons b bs ih =>
      intro x
      rcases ih (max x b) with h | h
      · rcases max_choice x b with hx | hb
        · exact Or.inl (by rw [List.foldl_cons, h, hx])
        · exact Or.inr (by rw [List.foldl_cons, h, hb]; exact List.mem_cons_self b bs)
      · exact Or.inr (List.mem_cons_of_mem b h)

/-- On a nonempty list, `npMax` returns a member that dominates every
element. -/
theorem npMax_spec {α : Type*} [LinearOrder α] (l : List α) (hl : l ≠ []) :
    ∃ m, npMax l = some m ∧ m ∈ l ∧ ∀ x ∈ l, x ≤ m := by
  cases l with
  | nil => exact absurd rfl hl
  | cons x xs =>
      refine ⟨xs.foldl max x, rfl, ?_, ?_⟩
      · rcases foldl_max_mem xs x with h | h
        · rw [h]; exact List.mem_cons_self x xs
        · exact List.mem_cons_of_mem x h
      · intro y hy
        rcases List.mem_cons.mp hy with h | h
        · subst h; exact le_foldl_max xs y
        · exact mem_le_foldl_max xs x y h

/-- `firstIdxEq` finds the first occurrence: the index is in range, the
entry there is `v`, and no earlier entry is `v`. -/
theorem firstIdxEq_spec {α : Type*} [DecidableEq α] (v : α) (d : α) :
    ∀ l : List α, v ∈ l →
      firstIdxEq v l < l.length ∧ l.getD (firstIdxEq v l) d = v ∧
        ∀ j < firstIdxEq v l, l.getD j d ≠ v := by
  intro l
  induction l with
  | nil => intro h; cases h
  | cons x xs ih =>
      intro hv
      by_cases hx : x = v
      · refine ⟨?_, ?_, ?_⟩
        · simp [firstIdxEq, hx]
        · simp [firstIdxEq, hx]
        · intro j hj
          simp [firstIdxEq, hx] at hj
      · have hvxs : v ∈ xs := by
          rcases List.mem_cons.mp hv with h | h
          · exact absurd h.symm hx
          · exact h
        obtain ⟨h1, h2, h3⟩ := ih hvxs
        refine ⟨?_, ?_, ?_⟩
        · simpa [firstIdxEq, hx] using Nat.succ_lt_succ h1
        · simpa [firstIdxEq, hx] using h2
        · intro j hj
          simp only [firstIdxEq, if_neg hx] at hj
          cases j with
          | zero => simpa using hx
          | succ j' =>
              have : j' < firstIdxEq v xs := Nat.lt_of_succ_lt_succ hj
              simpa using h3 j' this

theorem linspace_length {α : Type*} [Field α] (a b : α) (n : ℕ) (e : Bool) :
    (linspace a b n e).length = n := by
  simp [linspace]

theorem angleGrid_length {α : Type*} [Field α] (cosf sinf : α → α)
    (optmax a b : α) (ndir : ℕ) (e : Bool) :
    (angleGrid cosf sinf optmax a b ndir e).length = ndir := by
  simp [angleGrid, linspace_length]

theorem piMeas_length {α : Type*} [Field α] (pindex : List α → α) (sq : Bool)
    (X : List (α × α)) (cands : List (α × α)) :
    (piMeas pindex sq X cands).length = cands.length := by
  simp [piMeas]

theorem gridplane2Cands_length {α : Type*} [Field α] (cosf sinf sqrtf : α → α)
    (optmax a b q : α) (ndir : ℕ) :
    (gridplane2Cands cosf sinf sqrtf optmax a b q ndir).length = ndir := by
  simp [gridplane2Cands, angleGrid_length]

/-- Generic argmax contract of the shared selection step: on a nonempty
candidate list, the winner is the candidate at the first index attaining
the maximum of `meas`. -/
theorem gridSelect_spec {α : Type*} [LinearOrderedField α]
    (cands : List (α × α)) (meas : List α)
    (hlen : meas.length = cands.length) (hne : meas ≠ []) :
    ∃ k maximo,
      gridSelect cands meas = some (cands.getD k (0, 0), maximo) ∧
      k < cands.length ∧
      meas.getD k 0 = maximo ∧
      (∀ m ∈ meas, m ≤ maximo) ∧
      (∀ j < k, meas.getD j 0 ≠ maximo) := by
  obtain ⟨m, hm, hmem, hub⟩ := npMax_spec meas hne
  obtain ⟨h1, h2, h3⟩ := firstIdxEq_spec m (0 : α) meas hmem
  refine ⟨firstIdxEq m meas, m, ?_, ?_, h2, hub, h3⟩
  · simp [gridSelect, hm]
  · exact hlen ▸ h1

/-- C1: the Plane Optimizer returns a candidate of the generated grid
attaining the maximum measured value, the tie is broken at the first
(lowest-angle) index, and the winner has squared Euclidean norm
`optmax ^ 2`. -/
theorem gridplane_argmax_first_norm (X : List (ℝ × ℝ)) (pindex : List ℝ → ℝ)
    (squarePi : Bool) (optmax a b : ℝ) (ndir : ℕ) (hnd : 0 < ndir) :
    ∃ k wi maximo,
      gridplane Real.cos Real.sin pindex squarePi optmax a b ndir X
        = some (wi, maximo) ∧
      k < ndir ∧
      wi = (angleGrid Real.cos Real.sin optmax a b ndir false).getD k (0, 0) ∧
      wi ∈ angleGrid Real.cos Real.sin optmax a b ndir false ∧
      (piMeas pindex squarePi X
          (angleGrid Real.cos Real.sin optmax a b ndir false)).getD k 0 = maximo ∧
      (∀ m ∈ piMeas pindex squarePi X
          (angleGrid Real.cos Real.sin optmax a b ndir false), m ≤ maximo) ∧
      (∀ j < k, (piMeas pindex squarePi X
          (angleGrid Real.cos Real.sin optmax a b ndir false)).getD j 0 ≠ maximo) ∧
      wi.1 ^ 2 + wi.2 ^ 2 = optmax ^ 2 := by
  have hclen : (angleGrid Real.cos Real.sin optmax a b ndir false).length = ndir :=
    angleGrid_length _ _ _ _ _ _ _
  have hmlen :
      (piMeas pindex squarePi X (angleGrid Real.cos Real.sin optmax a b ndir false)).length
        = (angleGrid Real.cos Real.sin optmax a b ndir false).length :=
    piMeas_length _ _ _ _
  have hne : piMeas pindex squarePi X (angleGrid Real.cos Real.sin optmax a b ndir false) ≠ [] := by
    intro h
    rw [h] at hmlen
    rw [hclen] at hmlen
    simp at hmlen
    omega
  obtain ⟨k, maximo, hsel, hk, hgetd, hub, hfirst⟩ := gridSelect_spec _ _ hmlen hne
  have hkn : k < ndir := hclen ▸ hk
  have hmem :
      (angleGrid Real.cos Real.sin optmax a b ndir false).getD k (0, 0)
        ∈ angleGrid Real.cos Real.sin optmax a b ndir false := by
    rw [List.getD_eq_getElem _ _ hk]
    exact List.getElem_mem _
  refine ⟨k, _, maximo, ?_, hkn, rfl, hmem, hgetd, hub, hfirst, ?_⟩
  · simpa [gridplane] using hsel
  · have hex : ∃ θ, (optmax * Real.cos θ, optmax * Real.sin θ)
        = (angleGrid Real.cos Real.sin optmax a b ndir false).getD k (0, 0) := by
      have h := hmem
      rw [angleGrid] at h
      rcases List.mem_map.mp h with ⟨θ, _, hθ⟩
      exact ⟨θ, hθ⟩
    obtain ⟨θ, hθ⟩ := hex
    rw [← hθ]
    have hpyth := Real.sin_sq_add_cos_sq θ
    simp only []
    nlinarith [hpyth]

/-- Witness for `gridplane_argmax_first_norm` at a concrete input. -/
theorem gridplane_argmax_first_norm_witness :
    0 < 2 ∧
    ∃ k wi maximo,
      gridplane Real.cos Real.sin (fun _ => (0 : ℝ)) false 1 0 1 2 []
        = some (wi, maximo) ∧
      k < 2 ∧
      wi = (angleGrid Real.cos Real.sin 1 0 1 2 false).getD k (0, 0) ∧
      wi ∈ angleGrid Real.cos Real.sin 1 0 1 2 false ∧
      (piMeas (fun _ => (0 : ℝ)) false []
          (angleGrid Real.cos Real.sin 1 0 1 2 false)).getD k 0 = maximo ∧
      (∀ m ∈ piMeas (fun _ => (0 : ℝ)) false []
          (angleGrid Real.cos Real.sin 1 0 1 2 false), m ≤ maximo) ∧
      (∀ j < k, (piMeas (fun _ => (0 : ℝ)) false []
          (angleGrid Real.cos Real.sin 1 0 1 2 false)).getD j 0 ≠ maximo) ∧
      wi.1 ^ 2 + wi.2 ^ 2 = 1 ^ 2 :=
  ⟨by decide,
   gridplane_argmax_first_norm [] (fun _ => (0 : ℝ)) false 1 0 1 2 (by decide)⟩

/-! ## C7: sectors and divisor of the two grid searches

In `fit` (lines 521–537) and in `_gridplane`'s regeneration, the cached
bounds are `stop0s = arcsin(-1)`, `stop1s = arcsin(1)`,
`stop1c = arccos(-1)`, `stop0c = arccos(1)` (from
`optrange = np.sign((-1, 1))`), and `optmax = self.optrange[1] = 1`.
The coarse pass uses `max` of the bounds with `endpoint=False`; the
refiner uses `min` of the bounds with `endpoint=True`. -/

/-- With `optrange = (-1, 1)`, the coarse sector's start bound
`anglestart = max(arccos(1), arcsin(-1))` is `0`. -/
theorem fitBounds_open_lo : max (Real.arccos 1) (Real.arcsin (-1)) = 0 := by
  rw [Real.arccos_one, Real.arcsin_neg_one]
  exact max_eq_left (by linarith [Real.pi_pos])

/-- The coarse sector's stop bound `anglestop = max(arccos(-1), arcsin(1))`
is `π`. -/
theorem fitBounds_open_hi : max (Real.arccos (-1)) (Real.arcsin 1) = Real.pi := by
  rw [Real.arccos_neg_one, Real.arcsin_one]
  exact max_eq_left (by linarith [Real.pi_pos])

/-- The refiner sector's start bound `min(arccos(1), arcsin(-1))` is `-π/2`. -/
theorem fitBounds_closed_lo :
    min (Real.arccos 1) (Real.arcsin (-1)) = -(Real.pi / 2) := by
  rw [Real.arccos_one, Real.arcsin_neg_one]
  exact min_eq_right (by linarith [Real.pi_pos])

/-- The refiner sector's stop bound `min(arccos(-1), arcsin(1))` is `π/2`. -/
theorem fitBounds_closed_hi :
    min (Real.arccos (-1)) (Real.arcsin 1) = Real.pi / 2 := by
  rw [Real.arccos_neg_one, Real.arcsin_one]
  exact min_eq_right (by linarith [Real.pi_pos])

/-- C7: with the program's cached bounds, the refiner samples the closed
evenly spaced grid over `[-π/2, π/2]` (the min-of-bounds sector) and
divides each `(cos θ, sin θ)` componentwise by
`sqrt(1 + 2·cos θ·sin θ·q)`, while the coarse search samples the open
grid over `[0, π)` (the max-of-bounds sector) without the divisor. -/
theorem gridplane2_sector_divisor (q : ℝ) (ndir : ℕ) :
    gridplane2Cands Real.cos Real.sin Real.sqrt 1
        (min (Real.arccos 1) (Real.arcsin (-1)))
        (min (Real.arccos (-1)) (Real.arcsin 1)) q ndir
      = (linspace (-(Real.pi / 2)) (Real.pi / 2) ndir true).map
          (fun θ =>
            (Real.cos θ / Real.sqrt (1 + 2 * (Real.cos θ * Real.sin θ) * q),
             Real.sin θ / Real.sqrt (1 + 2 * (Real.cos θ * Real.sin θ) * q)))
    ∧ angleGrid Real.cos Real.sin 1
        (max (Real.arccos 1) (Real.arcsin (-1)))
        (max (Real.arccos (-1)) (Real.arcsin 1)) ndir false
      = (linspace 0 Real.pi ndir false).map (fun θ => (Real.cos θ, Real.sin θ)) := by
  have hmin1 := fitBounds_closed_lo
  have hmin2 := fitBounds_closed_hi
  have hmax1 := fitBounds_open_lo
  have hmax2 := fitBounds_open_hi
  constructor
  · rw [hmin1, hmin2, gridplane2Cands, angleGrid, List.map_map]
    refine List.map_congr_left ?_
    intro θ _
    simp
  · rw [hmax1, hmax2, angleGrid]
    refine List.map_congr_left ?_
    intro θ _
    simp

/-! ## C4: the `div` argument of the refiner

In the sweep (lines 617–632) `fit` computes
`maxiter_2j = 2**round(np.log2(maxiter))` and passes
`div = maxiter_2j` for `j > 16`, else `min(2**j, maxiter_2j)`, to
`_gridplane_2`; the refiner's body never reads `div` — the number of
scanned candidates is `ndir`.  (Python's banker's rounding and
Mathlib's `round` agree here because `log2` of an integer is never an
exact half-integer.) -/

/-- The `div` value computed for variable `j` from
`maxiter_2j = m2j` (lines 623–626). -/
def divv (m2j : ℕ) (j : ℕ) : ℕ := if 16 < j then m2j else min (2 ^ j) m2j

/-- C4 (amended): the refiner ignores `div` — its result is the same
for any two `div` values and its candidate scan has length `ndir`; and
the `div` argument passed for variable `j` is `maxiter_2j` for
`j > 16` and `min(2^j, maxiter_2j)` otherwise. -/
theorem gridplane2_div_unused (cosf sinf sqrtf : ℝ → ℝ) (pindex : List ℝ → ℝ)
    (sq : Bool) (optmax a b q : ℝ) (d₁ d₂ ndir : ℕ) (X : List (ℝ × ℝ))
    (m2j j : ℕ) :
    gridplane2 cosf sinf sqrtf pindex sq optmax a b q d₁ ndir X
      = gridplane2 cosf sinf sqrtf pindex sq optmax a b q d₂ ndir X
    ∧ (piMeas pindex sq X (gridplane2Cands cosf sinf sqrtf optmax a b q ndir)).length
        = ndir
    ∧ divv m2j j = if 16 < j then m2j else min (2 ^ j) m2j := by
  refine ⟨rfl, ?_, rfl⟩
  rw [piMeas_length, gridplane2Cands_length]

/-- C4 (counterexample): at `maxiter = 3`, `j = 2`, the code's
`div = min(2^2, 2^round(log2 3)) = 4` differs from the claimed
`min(2^2, 2^⌊log2 3⌋) = 2`; and at `ndir = 5` the refiner scans `5`
candidates, not the `div = 4` the claim says it scans. -/
theorem gridplane2_div_counterexample :
    divv (2 ^ (round (Real.logb 2 3)).toNat) 2 = 4
    ∧ min (2 ^ 2) (2 ^ (⌊Real.logb 2 3⌋).toNat) = 2
    ∧ (gridplane2Cands Real.cos Real.sin Real.sqrt 1 0 1 0 5).length = 5
    ∧ divv (2 ^ (round (Real.logb 2 3)).toNat) 2 ≠ 5 := by
  have hub : Real.logb 2 3 < 2 := by
    rw [Real.logb_lt_iff_lt_rpow (by norm_num) (by norm_num)]
    rw [show ((2 : ℝ) : ℝ) ^ (2 : ℝ) = (2 : ℝ) ^ ((2 : ℕ) : ℝ) by norm_num,
      Real.rpow_natCast]
    norm_num
  have hlb : (3 / 2 : ℝ) ≤ Real.logb 2 3 := by
    rw [Real.le_logb_iff_rpow_le (by norm_num) (by norm_num)]
    have hnn : (0 : ℝ) ≤ (2 : ℝ) ^ ((3 : ℝ) / 2) :=
      Real.rpow_nonneg (by norm_num) _
    have hsq : ((2 : ℝ) ^ ((3 : ℝ) / 2)) ^ (2 : ℕ) = 8 := by
      rw [← Real.rpow_natCast ((2 : ℝ) ^ ((3 : ℝ) / 2)) 2,
        ← Real.rpow_mul (by norm_num)]
      norm_num
    nlinarith [hnn, hsq]
  have hlb1 : (1 : ℝ) ≤ Real.logb 2 3 := by linarith
  have hround : round (Real.logb 2 3) = 2 := by
    rw [round_eq, Int.floor_eq_iff]
    constructor
    · push_cast; linarith
    · push_cast; linarith
  have hfloor : ⌊Real.logb 2 3⌋ = 1 := by
    rw [Int.floor_eq_iff]
    constructor
    · push_cast; linarith
    · push_cast; linarith
  refine ⟨?_, ?_, ?_, ?_⟩
  · rw [hround]; rfl
  · rw [hfloor]; rfl
  · rw [gridplane2Cands_length]
  · rw [hround]; decide

/-! ## Pairwise dimension reducer (`fit`, lines 581–662)

For `p > 2`, `fit` seeds a running combination by a plane search on the
first two variables plus a sequential fold over the remaining variables
(lines 591–602), then iterates full sweeps over all variables with the
refiner until the relative objective change drops to `1e-4` or the
guard `ii < maxiter + 1` fails (lines 612–657).

The configuration record gathers the quantities fixed for one `fit`
call; `pindex` is the projection index evaluated on a score column and
`pindexQ` the same evaluator as called on line 641 with the extra
`q=afin` keyword (an evaluator that ignores the keyword has
`pindexQ t q = pindex t`). -/

structure PPCfg (α : Type*) where
  cosf : α → α
  sinf : α → α
  sqrtf : α → α
  pindex : List α → α
  pindexQ : List α → List α → α
  squarePi : Bool
  optmax : α
  aOpen : α
  bOpen : α
  aClosed : α
  bClosed : α
  ndir : ℕ
  maxiter : ℕ
  m2j : ℕ
  constraintNorm : Bool

/-- `if square_pi: v *= v` applied to an evaluator result. -/
def sqIf {α : Type*} [Mul α] (sq : Bool) (v : α) : α := if sq then v * v else v

/-- The winning `(wi, maximo)` pair of a `_gridplane` call; the `getD`
default is unreachable whenever `ndir > 0` (on an empty grid the source
raises inside `np.max`). -/
def gpWin {α : Type*} [LinearOrderedField α] (cfg : PPCfg α) (X : List (α × α)) :
    (α × α) × α :=
  (gridplane cfg.cosf cfg.sinf cfg.pindex cfg.squarePi cfg.optmax cfg.aOpen cfg.bOpen
      cfg.ndir X).getD ((0, 0), 0)

/-- The winning `(wi, maximo)` pair of a `_gridplane_2` call. -/
def gp2Win {α : Type*} [LinearOrderedField α] (cfg : PPCfg α) (X : List (α × α))
    (q : α) (div : ℕ) : (α × α) × α :=
  (gridplane2 cfg.cosf cfg.sinf cfg.sqrtf cfg.pindex cfg.squarePi cfg.optmax
      cfg.aClosed cfg.bClosed q div cfg.ndir X).getD ((0, 0), 0)

/-- One sequential-fold step of the seed phase (lines 594–602): plane
search on `(Zopt, Z[:,j])`, then `Zopt ← w0·Zopt + w1·Z[:,j]`,
`afin[0:j+1] *= w0`, `afin[j] = w1`. -/
def seedFoldStep {α : Type*} [LinearOrderedField α] (cfg : PPCfg α)
    (Z : List (List α)) (st : List α × List α) (j : ℕ) : List α × List α :=
  let w := (gpWin cfg (st.1.zip (colD Z j))).1
  (vAdd (vSmul w.1 st.1) (vSmul w.2 (colD Z j)),
   (((st.2.take (j + 1)).map (w.1 * ·) ++ st.2.drop (j + 1)).set j w.2))

/-- Seed phase of the reducer (lines 583–602): plane search on the
first two variables, then the sequential fold over `j = 2, …, p-1`.
Returns `(Zopt, afin)`.  (The `meas` ranking computed on lines 586–590
is dead code in the source — it is never read — and is omitted.) -/
def seedState {α : Type*} [LinearOrderedField α] (cfg : PPCfg α)
    (Z : List (List α)) (p : ℕ) : List α × List α :=
  let w0 := (gpWin cfg ((colD Z 0).zip (colD Z 1))).1
  let Zopt0 := projCol ((colD Z 0).zip (colD Z 1)) w0
  let afin0 := ((List.replicate p (0 : α)).set 0 w0.1).set 1 w0.2
  (List.range (p - 2)).foldl (fun st k => seedFoldStep cfg Z st (k + 2)) (Zopt0, afin0)

/-- State of the outer convergence loop. -/
structure OuterState (α : Type*) where
  Zopt : List α
  afin : List α
  afinbest : List α
  objf : α
  objfold : α
  ii : ℕ

/-- One full sweep over the variables `j = 0, …, p-1` (lines 620–635):
refiner call with `q = afin[j]` and `div = divv m2j j`, then
`Zopt ← w0·Zopt + w1·Z[:,j]`, `afin *= w0`, `afin[j] += w1`. -/
def sweepStep {α : Type*} [LinearOrderedField α] (cfg : PPCfg α)
    (Z : List (List α)) (p : ℕ) (st : List α × List α) : List α × List α :=
  (List.range p).foldl
    (fun st j =>
      let w := (gp2Win cfg (st.1.zip (colD Z j)) (st.2.getD j 0) (divv cfg.m2j j)).1
      (vAdd (vSmul w.1 st.1) (vSmul w.2 (colD Z j)),
       (st.2.map (w.1 * ·)).set j (w.1 * st.2.getD j 0 + w.2)))
    st

/-- Best-combination update after a sweep (lines 648–652): when the new
objective differs from the previous sweep's, store `afin/‖afin‖` under
the `'norm'` constraint (else raw `afin`); otherwise keep the previous
best. -/
def bestUpdate {α : Type*} [LinearOrderedField α] (sqrtf : α → α)
    (constraintNorm : Bool) (objf objfold : α) (afin afinbest : List α) : List α :=
  if objf ≠ objfold then
    (if constraintNorm then vSmul (1 / sqrtf (sumSq afin)) afin else afin)
  else afinbest

/-- The `while` guard (line 619):
`ii < maxiter + 1 and abs(objfold - objf)/abs(objf) > 1e-4`. -/
def outerCond {α : Type*} [LinearOrderedField α] (maxiter : ℕ) (s : OuterState α) :
    Bool :=
  decide (s.ii < maxiter + 1) && decide ((1 : α) / 10000 < |s.objfold - s.objf| / |s.objf|)

/-- One iteration of the outer loop body (lines 620–656): sweep, full
objective re-evaluation (with the `q=afin` keyword, line 641, squared
under `square_pi`), best-combination update, `ii += 1`. -/
def outerBody {α : Type*} [LinearOrderedField α] (cfg : PPCfg α)
    (Z : List (List α)) (p n : ℕ) (s : OuterState α) : OuterState α :=
  let st := sweepStep cfg Z p (s.Zopt, s.afin)
  let objf := sqIf cfg.squarePi (cfg.pindexQ (matVecCols Z st.2 n) st.2)
  { Zopt := st.1
    afin := st.2
    afinbest := bestUpdate cfg.sqrtf cfg.constraintNorm objf s.objf st.2 s.afinbest
    objf := objf
    objfold := s.objf
    ii := s.ii + 1 }

/-- Fuel-indexed `while` loop.  The guard is re-tested before each body
execution; with fuel at least `maxiter + 1 - ii` this is exact for the
source's loop because the guard itself contains `ii < maxiter + 1`. -/
def whileLoop {σ : Type*} (cond : σ → Bool) (body : σ → σ) : ℕ → σ → σ
  | 0, s => s
  | Nat.succ f, s => if cond s then whileLoop cond body f (body s) else s

/-- Loop initialisation (lines 604–616): seed objective (evaluated
without the `q` keyword, line 605), then
`objfold = objf; objf = -1000; afinbest = afin; ii = 0`. -/
def reducerInit {α : Type*} [LinearOrderedField α] (cfg : PPCfg α)
    (Z : List (List α)) (p n : ℕ) : OuterState α :=
  let st := seedState cfg Z p
  { Zopt := st.1
    afin := st.2
    afinbest := st.2
    objf := -1000
    objfold := sqIf cfg.squarePi (cfg.pindex (matVecCols Z st.2 n))
    ii := 0 }

/-- The outer loop's final state. -/
def reducerFinal {α : Type*} [LinearOrderedField α] (cfg : PPCfg α)
    (Z : List (List α)) (p n : ℕ) : OuterState α :=
  whileLoop (outerCond cfg.maxiter) (outerBody cfg Z p n) (cfg.maxiter + 1)
    (reducerInit cfg Z p n)

/-- Result of the reducer (lines 659–662):
`afinbest = afin; wi = afinbest; Maxobjf[i] = objf` — the returned
direction is the final `afin`, and the tracked best is overwritten. -/
def reducerDirection {α : Type*} [LinearOrderedField α] (cfg : PPCfg α)
    (Z : List (List α)) (p n : ℕ) : List α × α :=
  ((reducerFinal cfg Z p n).afin, (reducerFinal cfg Z p n).objf)

/-! ## C3: termination of the outer loop -/

theorem whileLoop_exit {σ : Type*} (cond : σ → Bool) (body : σ → σ)
    (key : σ → ℕ) (M : ℕ)
    (hc : ∀ s, cond s = true → key s < M)
    (hb : ∀ s, key (body s) = key s + 1) :
    ∀ (fuel : ℕ) (s : σ), key s ≤ M → M ≤ key s + fuel →
      cond (whileLoop cond body fuel s) = false ∧
        key (whileLoop cond body fuel s) ≤ M := by
  intro fuel
  induction fuel with
  | zero =>
      intro s h1 h2
      have hkey : key s = M := le_antisymm h1 (by omega)
      constructor
      · by_contra hcond
        have : cond s = true := by
          cases h : cond s
          · exact absurd (by simp [whileLoop, h]) hcond
          · rfl
        have := hc s this
        omega
      · simpa [whileLoop] using h1
  | succ f ih =>
      intro s h1 h2
      rw [whileLoop]
      by_cases h : cond s = true
      · rw [if_pos h]
        have hlt : key s < M := hc s h
        exact ih (body s) (by rw [hb s]; omega) (by rw [hb s]; omega)
      · have hfalse : cond s = false := by
          cases hcs : cond s
          · rfl
          · exact absurd hcs h
        rw [if_neg h]
        exact ⟨hfalse, h1⟩

/-- C3 (amended): the outer loop always terminates with no error after
at most `maxiter + 1` full sweeps (the guard is `ii < maxiter + 1` and
`ii` counts completed sweeps); at exit the guard is false — either the
relative objective change is at most `1e-4` or the sweep cap is
reached — and the direction returned for the component is the final
sweep's `afin`. -/
theorem outer_loop_terminates (cfg : PPCfg ℝ) (Z : List (List ℝ)) (p n : ℕ) :
    (reducerFinal cfg Z p n).ii ≤ cfg.maxiter + 1 ∧
    outerCond cfg.maxiter (reducerFinal cfg Z p n) = false ∧
    (reducerDirection cfg Z p n).1 = (reducerFinal cfg Z p n).afin := by
  have hc : ∀ s : OuterState ℝ, outerCond cfg.maxiter s = true → s.ii < cfg.maxiter + 1 := by
    intro s hs
    simp only [outerCond, Bool.and_eq_true, decide_eq_true_eq] at hs
    exact hs.1
  have hb : ∀ s : OuterState ℝ, (outerBody cfg Z p n s).ii = s.ii + 1 := by
    intro s
    simp [outerBody]
  have hkey : (reducerInit cfg Z p n).ii = 0 := by
    simp [reducerInit]
  obtain ⟨h1, h2⟩ := whileLoop_exit (outerCond cfg.maxiter) (outerBody cfg Z p n)
    (fun s => s.ii) (cfg.maxiter + 1) hc hb (cfg.maxiter + 1) (reducerInit cfg Z p n)
    (by simp [hkey]) (by simp [hkey])
  exact ⟨h2, h1, rfl⟩

/-! ## Concrete reducer run (counterexample fixture)

A `p = 3`, `n = 1` fit with the genuine trigonometric primitives and
the fit-level cached angular bounds, `ndir = 3`, `maxiter = 1` (so
`maxiter_2j = 2**round(np.log2(1)) = 1`), the default
`square_pi = False` and `'norm'` constraint, and the user-supplied
constant projection index `-2000` (the class accepts arbitrary
user-defined projection indices). -/

def cexZ : List (List ℝ) := [[1], [0], [0]]

/-- Fixture configuration, parametrised by the trigonometric primitives
and the four cached angular bounds so that the definition stays
computable; the theorems instantiate them with `Real.cos`, `Real.sin`,
`Real.sqrt` and the bound values `0`, `π`, `-π/2`, `π/2` that `fit`
computes (theorems `fitBounds_open_lo` … `fitBounds_closed_hi`). -/
def cexCfgAt (c s r : ℝ → ℝ) (a1 b1 a2 b2 : ℝ) : PPCfg ℝ where
  cosf := c
  sinf := s
  sqrtf := r
  pindex := fun _ => -2000
  pindexQ := fun _ _ => -2000
  squarePi := false
  optmax := 1
  aOpen := a1
  bOpen := b1
  aClosed := a2
  bClosed := b2
  ndir := 3
  maxiter := 1
  m2j := 1
  constraintNorm := true

/-- With a constant projection index, every measured value ties and the
coarse search returns the first (lowest-angle) candidate
`(cos 0, sin 0) = (1, 0)`. -/
theorem cex_gpWin (b1 a2 b2 : ℝ) (X : List (ℝ × ℝ)) :
    gpWin (cexCfgAt Real.cos Real.sin Real.sqrt 0 b1 a2 b2) X = ((1, 0), -2000) := by
  have hr3 : List.range 3 = [0, 1, 2] := rfl
  simp [gpWin, gridplane, gridSelect, angleGrid, piMeas, linspace, npMax,
    firstIdxEq, cexCfgAt, hr3]

/-- With a constant projection index, the refiner returns its first
candidate `(cos(-π/2), sin(-π/2)) / sqrt(1) = (0, -1)`. -/
theorem cex_gp2Win (b1 b2 : ℝ) (X : List (ℝ × ℝ)) (q : ℝ) (d : ℕ) :
    gp2Win (cexCfgAt Real.cos Real.sin Real.sqrt 0 b1 (-(Real.pi / 2)) b2) X q d
      = ((0, -1), -2000) := by
  have hr3 : List.range 3 = [0, 1, 2] := rfl
  simp [gp2Win, gridplane2, gridplane2Cands, gridSelect, angleGrid, piMeas,
    linspace, npMax, firstIdxEq, cexCfgAt, hr3]

theorem cex_seed (b1 b2 : ℝ) :
    seedState (cexCfgAt Real.cos Real.sin Real.sqrt 0 b1 (-(Real.pi / 2)) b2) cexZ 3
      = ([1], [1, 0, 0]) := by
  have hr1 : List.range (3 - 2) = [0] := rfl
  simp [seedState, hr1, seedFoldStep, cex_gpWin, colD, cexZ, projCol, vAdd, vSmul]

theorem cex_init (b1 b2 : ℝ) :
    reducerInit (cexCfgAt Real.cos Real.sin Real.sqrt 0 b1 (-(Real.pi / 2)) b2) cexZ 3 1
      = ⟨[1], [1, 0, 0], [1, 0, 0], -1000, -2000, 0⟩ := by
  simp only [reducerInit]
  rw [cex_seed b1 b2]
  simp [cexCfgAt, sqIf]

theorem cex_sweep (b1 b2 : ℝ) :
    sweepStep (cexCfgAt Real.cos Real.sin Real.sqrt 0 b1 (-(Real.pi / 2)) b2) cexZ 3
      ([1], [1, 0, 0]) = ([0], [0, 0, -1]) := by
  have hr3 : List.range 3 = [0, 1, 2] := rfl
  simp [sweepStep, hr3, cex_gp2Win, colD, cexZ, vAdd, vSmul]

/-- C3 (counterexample): with `maxiter = 1` the loop guard
`ii < maxiter + 1` admits two full sweeps — the constant-index fixture
run executes `ii = 2 > maxiter` sweeps, refuting the claimed hard cap
of "at most maxiter full sweeps". -/
theorem outer_loop_exceeds_maxiter_cap :
    (cexCfgAt Real.cos Real.sin Real.sqrt 0 Real.pi (-(Real.pi / 2))
        (Real.pi / 2)).maxiter = 1
    ∧ (reducerFinal
        (cexCfgAt Real.cos Real.sin Real.sqrt 0 Real.pi (-(Real.pi / 2))
          (Real.pi / 2)) cexZ 3 1).ii = 2 := by
  refine ⟨rfl, ?_⟩
  have habs1 : |(-2000 : ℝ) - -1000| = 1000 := by
    rw [show ((-2000 : ℝ) - -1000) = -1000 by norm_num,
      abs_of_neg (by norm_num : (-1000 : ℝ) < 0)]
    norm_num
  have habs2 : |(-1000 : ℝ)| = 1000 := by
    rw [abs_of_neg (by norm_num : (-1000 : ℝ) < 0)]
    norm_num
  have habs3 : |(-1000 : ℝ) - -2000| = 1000 := by
    rw [show ((-1000 : ℝ) - -2000) = 1000 by norm_num,
      abs_of_nonneg (by norm_num : (0 : ℝ) ≤ 1000)]
  have habs4 : |(-2000 : ℝ)| = 2000 := by
    rw [abs_of_neg (by norm_num : (-2000 : ℝ) < 0)]
    norm_num
  have hofj : ∀ s : OuterState ℝ,
      (outerBody (cexCfgAt Real.cos Real.sin Real.sqrt 0 Real.pi (-(Real.pi / 2))
        (Real.pi / 2)) cexZ 3 1 s).objf = -2000 := by
    intro s; simp [outerBody, sqIf, cexCfgAt]
  have hoold : ∀ s : OuterState ℝ,
      (outerBody (cexCfgAt Real.cos Real.sin Real.sqrt 0 Real.pi (-(Real.pi / 2))
        (Real.pi / 2)) cexZ 3 1 s).objfold = s.objf := by
    intro s; simp [outerBody]
  have hoii : ∀ s : OuterState ℝ,
      (outerBody (cexCfgAt Real.cos Real.sin Real.sqrt 0 Real.pi (-(Real.pi / 2))
        (Real.pi / 2)) cexZ 3 1 s).ii = s.ii + 1 := by
    intro s; simp [outerBody]
  rw [reducerFinal, cex_init]
  rw [show (cexCfgAt Real.cos Real.sin Real.sqrt 0 Real.pi (-(Real.pi / 2))
    (Real.pi / 2)).maxiter = 1 from rfl]
  have hc0 : outerCond 1
      (⟨[1], [1, 0, 0], [1, 0, 0], -1000, -2000, 0⟩ : OuterState ℝ) = true := by
    simp only [outerCond, Bool.and_eq_true, decide_eq_true_eq]
    rw [habs1, habs2]
    norm_num
  rw [whileLoop, if_pos hc0, whileLoop]
  have hc1 : outerCond 1
      (outerBody (cexCfgAt Real.cos Real.sin Real.sqrt 0 Real.pi (-(Real.pi / 2))
        (Real.pi / 2)) cexZ 3 1
        (⟨[1], [1, 0, 0], [1, 0, 0], -1000, -2000, 0⟩ : OuterState ℝ)) = true := by
    simp only [outerCond, Bool.and_eq_true, decide_eq_true_eq, hofj, hoold, hoii]
    rw [habs3, habs4]
    norm_num
  rw [if_pos hc1, whileLoop, hoii, hoii]

/-! ## C5: the best-combination update -/

theorem sumSq_cons {α : Type*} [Mul α] [AddCommMonoid α] (x : α) (xs : List α) :
    sumSq (x :: xs) = x * x + sumSq xs := by
  simp [sumSq]

theorem sumSq_nonneg (u : List ℝ) : 0 ≤ sumSq u := by
  induction u with
  | nil => simp [sumSq]
  | cons x xs ih =>
      rw [sumSq_cons]
      nlinarith [mul_self_nonneg x]

theorem sumSq_vSmul (c : ℝ) (u : List ℝ) : sumSq (vSmul c u) = c ^ 2 * sumSq u := by
  induction u with
  | nil => simp [sumSq, vSmul]
  | cons x xs ih =>
      rw [show vSmul c (x :: xs) = (c * x) :: vSmul c xs from rfl, sumSq_cons,
        sumSq_cons, ih]
      ring

/-- C5 (amended): the stored best combination is updated exactly when
the sweep's objective value differs from the previous sweep's value
(not only on strict improvement); under the default `'norm'` constraint
the stored value is `afin/√(Σ afin²)`, whose squared norm is `1`
whenever `Σ afin² ≠ 0`; and the value ultimately reported as the
component's direction is the final sweep's raw `afin` (line 659
overwrites the tracked best), not the tracked best vector. -/
theorem best_update_characterization (objf objfold : ℝ) (afin afinbest : List ℝ) :
    (objf = objfold → bestUpdate Real.sqrt true objf objfold afin afinbest = afinbest)
    ∧ (objf ≠ objfold →
        bestUpdate Real.sqrt true objf objfold afin afinbest
          = vSmul (1 / Real.sqrt (sumSq afin)) afin)
    ∧ (objf ≠ objfold → sumSq afin ≠ 0 →
        sumSq (bestUpdate Real.sqrt true objf objfold afin afinbest) = 1)
    ∧ ∀ (cfg : PPCfg ℝ) (Z : List (List ℝ)) (p n : ℕ),
        (reducerDirection cfg Z p n).1 = (reducerFinal cfg Z p n).afin := by
  have hupd : objf ≠ objfold →
      bestUpdate Real.sqrt true objf objfold afin afinbest
        = vSmul (1 / Real.sqrt (sumSq afin)) afin := by
    intro h
    simp [bestUpdate, h]
  refine ⟨?_, hupd, ?_, fun _ _ _ _ => rfl⟩
  · intro h
    simp [bestUpdate, h]
  · intro h hS
    rw [hupd h, sumSq_vSmul]
    have h0 : 0 ≤ sumSq afin := sumSq_nonneg afin
    have hpos : 0 < sumSq afin := lt_of_le_of_ne h0 (Ne.symm hS)
    have hsq : Real.sqrt (sumSq afin) ^ 2 = sumSq afin := Real.sq_sqrt h0
    have hne : Real.sqrt (sumSq afin) ^ 2 ≠ 0 := by rw [hsq]; exact hS
    rw [div_pow, one_pow, div_mul_eq_mul_div, one_mul, hsq]
    exact div_self hS

/-- Witness for `best_update_characterization` at a concrete input. -/
theorem best_update_characterization_witness :
    ((1 : ℝ) ≠ 0 ∧ sumSq ([2] : List ℝ) ≠ 0)
    ∧ sumSq (bestUpdate Real.sqrt true (1 : ℝ) 0 [2] []) = 1 :=
  ⟨⟨by norm_num, by norm_num [sumSq]⟩,
   (best_update_characterization 1 0 [2] []).2.2.1 (by norm_num) (by norm_num [sumSq])⟩

/-- C5 (counterexample): in the fixture run the first sweep's objective
`-2000` is strictly worse than the previous value `-1000`, yet the
best-so-far vector is updated (from `[1,0,0]` to `[0,0,-1]`), refuting
"updated exactly when a sweep strictly improved the objective".  The
loop guard holds at the initial state, so this sweep is executed. -/
theorem best_update_on_worsened_sweep :
    outerCond
        (cexCfgAt Real.cos Real.sin Real.sqrt 0 Real.pi (-(Real.pi / 2))
          (Real.pi / 2)).maxiter
        (reducerInit (cexCfgAt Real.cos Real.sin Real.sqrt 0 Real.pi (-(Real.pi / 2))
          (Real.pi / 2)) cexZ 3 1) = true
    ∧ (outerBody (cexCfgAt Real.cos Real.sin Real.sqrt 0 Real.pi (-(Real.pi / 2))
          (Real.pi / 2)) cexZ 3 1
        (reducerInit (cexCfgAt Real.cos Real.sin Real.sqrt 0 Real.pi (-(Real.pi / 2))
          (Real.pi / 2)) cexZ 3 1)).objf
      < (outerBody (cexCfgAt Real.cos Real.sin Real.sqrt 0 Real.pi (-(Real.pi / 2))
          (Real.pi / 2)) cexZ 3 1
        (reducerInit (cexCfgAt Real.cos Real.sin Real.sqrt 0 Real.pi (-(Real.pi / 2))
          (Real.pi / 2)) cexZ 3 1)).objfold
    ∧ (outerBody (cexCfgAt Real.cos Real.sin Real.sqrt 0 Real.pi (-(Real.pi / 2))
          (Real.pi / 2)) cexZ 3 1
        (reducerInit (cexCfgAt Real.cos Real.sin Real.sqrt 0 Real.pi (-(Real.pi / 2))
          (Real.pi / 2)) cexZ 3 1)).afinbest
      ≠ (reducerInit (cexCfgAt Real.cos Real.sin Real.sqrt 0 Real.pi (-(Real.pi / 2))
          (Real.pi / 2)) cexZ 3 1).afinbest := by
  rw [cex_init]
  have habs1 : |(-2000 : ℝ) - -1000| = 1000 := by
    rw [show ((-2000 : ℝ) - -1000) = -1000 by norm_num,
      abs_of_neg (by norm_num : (-1000 : ℝ) < 0)]
    norm_num
  have habs2 : |(-1000 : ℝ)| = 1000 := by
    rw [abs_of_neg (by norm_num : (-1000 : ℝ) < 0)]
    norm_num
  refine ⟨?_, ?_, ?_⟩
  · simp only [outerCond, Bool.and_eq_true, decide_eq_true_eq]
    rw [habs1, habs2]
    norm_num [cexCfgAt]
  · simp only [outerBody]
    rw [cex_sweep]
    simp [sqIf, cexCfgAt]
    norm_num
  · simp only [outerBody]
    rw [cex_sweep]
    have hss : sumSq ([0, 0, -1] : List ℝ) = 1 := by norm_num [sumSq]
    simp [bestUpdate, sqIf, cexCfgAt, vSmul, hss]

/-! ## Deflation / extraction controller (`fit`, lines 572–718)

The per-component loop: obtain the direction (one `_gridplane` call for
`p == 2`, the pairwise reducer for `p > 2`), compute score
`tᵢ = E·wᵢ` and loading `pᵢ = Eᵀ·tᵢ/‖tᵢ‖²`, store them, deflate
`E ← E − tᵢ·pᵢᵀ`, recompute `R = W·pinv(Pᵀ·W)` through the external
pseudo-inverse collaborator, and (two-block case, `regopt='OLS'`)
accumulate `cᵢ = tᵢᵀ·ys/‖tᵢ‖²` and `bᵢ = R·C[0:i+1]`.  The model fixes
the `center_data=False` preprocessing path (`Xs = X`, `sX = sy = 1`,
lines 459–462 and 492–495), the two-block `'OLS'` regression option and
no compression/whitening; the other branches delegate to external
collaborators (§6 of the specification). -/

/-- Result of the per-component direction computation, together with
the number of `_gridplane` and `_gridplane_2` calls it makes. -/
structure DirOut (α : Type*) where
  wi : List α
  maximo : α
  nGrid : ℕ
  nGrid2 : ℕ

/-- Dispatch of lines 575–663: `p == 2` bypasses the reducer with a
single `_gridplane` call on the residual block; `p > 2` runs the seed
(one optimizer call on the first two variables, one per remaining
variable — `p - 1` in total) and the outer loop (each of the `ii`
executed sweeps makes one refiner call per variable).  For `p < 2` the
source raises `NameError` (`wi` is never bound); modelled by a junk
value not reached under the claims' hypotheses. -/
def componentDirection {α : Type*} [LinearOrderedField α] (cfg : PPCfg α)
    (E : List (List α)) (p n : ℕ) : DirOut α :=
  if p = 2 then
    let r := gpWin cfg ((colD E 0).zip (colD E 1))
    ⟨[r.1.1, r.1.2], r.2, 1, 0⟩
  else if 2 < p then
    let fin := reducerFinal cfg E p n
    ⟨fin.afin, fin.objf, p - 1, fin.ii * p⟩
  else ⟨[], 0, 0, 0⟩

/-- Loading `pᵢ = Eᵀ·tᵢ / ‖tᵢ‖²` (line 668); `np.linalg.norm` squared
is the sum of squares. -/
def loadingOf {α : Type*} [Field α] (E : List (List α)) (ti : List α) : List α :=
  E.map (fun c => dotL c ti / sumSq ti)

/-- Deflation `E ← E − tᵢ·pᵢᵀ` (line 691), columnwise:
column `j` becomes `E[:,j] − pᵢ[j]·tᵢ`. -/
def deflateCols {α : Type*} [Field α] (E : List (List α)) (ti pI : List α) :
    List (List α) :=
  List.zipWith (fun c pj => vSub c (vSmul pj ti)) E pI

/-- One rotation column `R[:,b] = Σₐ M[a][b] · W[:,a]`. -/
def rotCol {α : Type*} [Field α] (W M : List (List α)) (n b : ℕ) : List α :=
  (List.range M.length).foldl
    (fun acc a => vAdd acc (vSmul ((M.getD a []).getD b 0) (colD W a)))
    (List.replicate n (0 : α))

/-- `R = W[:,0:i+1] · pinv(P[:,0:i+1]ᵀ · W[:,0:i+1])` (line 694); the
pseudo-inverse `scipy.linalg.pinv2` is the external collaborator
`pinvF`, acting on the small square matrix stored as a list of rows. -/
def rotationR {α : Type*} [Field α] (pinvF : List (List α) → List (List α))
    (W P : List (List α)) (n : ℕ) : List (List α) :=
  let M := pinvF (P.map (fun pc => W.map (fun wc => dotL pc wc)))
  (List.range W.length).map (rotCol W M n)

/-- Accumulator of the extraction loop: residual matrix, stored
columns, regression state, and grid-search call counters. -/
structure FitAcc (α : Type*) where
  E : List (List α)
  W : List (List α)
  P : List (List α)
  T : List (List α)
  C : List α
  B : List (List α)
  nGrid : ℕ
  nGrid2 : ℕ

/-- One iteration of the extraction loop (lines 573–718, two-block
`'OLS'` path with `center_data=False`, under which `sy/sX = 1` and the
stored `B` column equals `bᵢ = R·C[0:i+1]`). -/
def fitStep {α : Type*} [LinearOrderedField α] (cfg : PPCfg α) (ys : List α)
    (pinvF : List (List α) → List (List α)) (p n : ℕ) (acc : FitAcc α) : FitAcc α :=
  let d := componentDirection cfg acc.E p n
  let ti := matVecCols acc.E d.wi n
  let pI := loadingOf acc.E ti
  let W := acc.W ++ [d.wi]
  let P := acc.P ++ [pI]
  let ci := dotL ti ys / sumSq ti
  let C := acc.C ++ [ci]
  let R := rotationR pinvF W P n
  { E := deflateCols acc.E ti pI
    W := W
    P := P
    T := acc.T ++ [ti]
    C := C
    B := acc.B ++ [matVecCols R C n]
    nGrid := acc.nGrid + d.nGrid
    nGrid2 := acc.nGrid2 + d.nGrid2 }

/-- The extraction loop over `i = 0, …, h-1` starting from the
(deep-copied) preprocessed data `E₀ = Xs = X`. -/
def fitLoop {α : Type*} [LinearOrderedField α] (cfg : PPCfg α) (X : List (List α))
    (ys : List α) (pinvF : List (List α) → List (List α)) (h p n : ℕ) : FitAcc α :=
  (List.range h).foldl (fun acc _ => fitStep cfg ys pinvF p n acc)
    ⟨X, [], [], [], [], [], 0, 0⟩

/-! ## C6: deflation orthogonality -/

theorem dotL_nil_right {α : Type*} [Mul α] [AddCommMonoid α] (u : List α) :
    dotL u [] = 0 := by
  cases u <;> simp [dotL]

theorem dotL_comm {α : Type*} [CommRing α] :
    ∀ u v : List α, dotL u v = dotL v u := by
  intro u
  induction u with
  | nil => intro v; simp [dotL, dotL_nil_right]
  | cons x xs ih =>
      intro v
      cases v with
      | nil => simp [dotL]
      | cons y ys =>
          simp only [dotL, List.zipWith_cons_cons, List.sum_cons]
          rw [mul_comm]
          have hih := ih ys
          simp only [dotL] at hih
          rw [hih]

theorem dotL_vSmul_right {α : Type*} [CommRing α] (c : α) :
    ∀ u v : List α, dotL u (vSmul c v) = c * dotL u v := by
  intro u
  induction u with
  | nil => intro v; simp [dotL]
  | cons x xs ih =>
      intro v
      cases v with
      | nil => simp [dotL, vSmul]
      | cons y ys =>
          simp only [dotL, vSmul, List.map_cons, List.zipWith_cons_cons, List.sum_cons]
          have hih := ih ys
          simp only [dotL, vSmul] at hih
          rw [hih]
          ring

theorem dotL_vSub_right {α : Type*} [CommRing α] :
    ∀ u v w : List α, v.length = u.length → w.length = u.length →
      dotL u (vSub v w) = dotL u v - dotL u w := by
  intro u
  induction u with
  | nil =>
      intro v w hv hw
      have hv0 : v = [] := List.length_eq_zero.mp (by simpa using hv)
      have hw0 : w = [] := List.length_eq_zero.mp (by simpa using hw)
      subst hv0; subst hw0
      simp [dotL, vSub]
  | cons x xs ih =>
      intro v w hv hw
      cases v with
      | nil => simp at hv
      | cons a as =>
          cases w with
          | nil => simp at hw
          | cons b bs =>
              simp only [List.length_cons, Nat.succ.injEq] at hv hw
              simp only [dotL, vSub, List.zipWith_cons_cons, List.sum_cons]
              have hih := ih as bs hv hw
              simp only [dotL, vSub] at hih
              rw [hih]
              ring

theorem dotL_self_eq_sumSq {α : Type*} [CommRing α] :
    ∀ u : List α, dotL u u = sumSq u := by
  intro u
  induction u with
  | nil => simp [dotL, sumSq]
  | cons x xs ih =>
      simp only [dotL, List.zipWith_cons_cons, List.sum_cons, sumSq_cons]
      rw [show (List.zipWith (· * ·) xs xs).sum = dotL xs xs from rfl, ih]

theorem vSmul_length {α : Type*} [Mul α] (c : α) (u : List α) :
    (vSmul c u).length = u.length := by
  simp [vSmul]

/-- C6: with score `tᵢ = E·wᵢ` and loading `pᵢ = Eᵀ·tᵢ/‖tᵢ‖²`, every
column of the deflated residual `E − tᵢ·pᵢᵀ` has zero inner product
with `tᵢ` (exactly, in exact arithmetic), provided `‖tᵢ‖² ≠ 0`. -/
theorem deflation_orthogonality (E : List (List ℝ)) (w : List ℝ) (n : ℕ)
    (hcols : ∀ c ∈ E, c.length = (matVecCols E w n).length)
    (ht : sumSq (matVecCols E w n) ≠ 0) :
    ∀ c ∈ deflateCols E (matVecCols E w n) (loadingOf E (matVecCols E w n)),
      dotL (matVecCols E w n) c = 0 := by
  intro c hc
  rw [deflateCols, loadingOf] at hc
  rw [List.zipWith_map_right, List.zipWith_same, List.mem_map] at hc
  obtain ⟨c0, hc0mem, hc0⟩ := hc
  subst hc0
  have hlen : c0.length = (matVecCols E w n).length := hcols c0 hc0mem
  rw [dotL_vSub_right (matVecCols E w n) c0 _ hlen (by rw [vSmul_length])]
  rw [dotL_vSmul_right, dotL_self_eq_sumSq]
  rw [div_mul_cancel₀ _ ht]
  rw [dotL_comm]
  ring

/-- Witness for `deflation_orthogonality` at a concrete input. -/
theorem deflation_orthogonality_witness :
    ((∀ c ∈ [[(1 : ℝ)]], c.length = (matVecCols [[(1 : ℝ)]] [1] 1).length)
      ∧ sumSq (matVecCols [[(1 : ℝ)]] [1] 1) ≠ 0)
    ∧ ∀ c ∈ deflateCols [[(1 : ℝ)]] (matVecCols [[(1 : ℝ)]] [1] 1)
        (loadingOf [[(1 : ℝ)]] (matVecCols [[(1 : ℝ)]] [1] 1)),
        dotL (matVecCols [[(1 : ℝ)]] [1] 1) c = 0 :=
  ⟨⟨by
      intro c hc
      simp only [List.mem_singleton] at hc
      subst hc
      norm_num [matVecCols, colD, vAdd, vSmul, List.range_succ],
    by norm_num [matVecCols, colD, vAdd, vSmul, sumSq, List.range_succ]⟩,
   deflation_orthogonality [[(1 : ℝ)]] [1] 1
    (by
      intro c hc
      simp only [List.mem_singleton] at hc
      subst hc
      norm_num [matVecCols, colD, vAdd, vSmul, List.range_succ])
    (by norm_num [matVecCols, colD, vAdd, vSmul, sumSq, List.range_succ])⟩

/-! ## C9: single plane-optimizer call for `p = 2` -/

theorem fitLoop_succ {α : Type*} [LinearOrderedField α] (cfg : PPCfg α)
    (X : List (List α)) (ys : List α) (pinvF : List (List α) → List (List α))
    (h p n : ℕ) :
    fitLoop cfg X ys pinvF (h + 1) p n
      = fitStep cfg ys pinvF p n (fitLoop cfg X ys pinvF h p n) := by
  rw [fitLoop, fitLoop, List.range_succ]
  simp [List.foldl_append]

/-- C9: when the data has `p = 2` variables, the reducer is bypassed:
over a whole fit the extraction loop makes exactly one plane-optimizer
call per extracted component (`h` in total) and no plane-refiner call,
and each dispatch on a residual matrix costs exactly one `_gridplane`
call and zero `_gridplane_2` calls. -/
theorem p2_single_plane_call (cfg : PPCfg ℝ) (X : List (List ℝ)) (ys : List ℝ)
    (pinvF : List (List ℝ) → List (List ℝ)) (h n : ℕ) :
    (fitLoop cfg X ys pinvF h 2 n).nGrid = h
    ∧ (fitLoop cfg X ys pinvF h 2 n).nGrid2 = 0
    ∧ ∀ E : List (List ℝ),
        (componentDirection cfg E 2 n).nGrid = 1
        ∧ (componentDirection cfg E 2 n).nGrid2 = 0 := by
  have hmain : ∀ k : ℕ, (fitLoop cfg X ys pinvF k 2 n).nGrid = k
      ∧ (fitLoop cfg X ys pinvF k 2 n).nGrid2 = 0 := by
    intro k
    induction k with
    | zero => constructor <;> simp [fitLoop]
    | succ m ih =>
        rw [fitLoop_succ]
        constructor
        · simp only [fitStep]
          simp [componentDirection, ih.1]
        · simp only [fitStep]
          simp [componentDirection, ih.2]
  exact ⟨(hmain h).1, (hmain h).2,
    fun E => ⟨by simp [componentDirection], by simp [componentDirection]⟩⟩

/-! ## C10: the `predict` round trip

`fitted_ = np.matmul(X0, bi) + intercept` (line 745) uses only the last
coefficient column `bi = B[:, h-1]`, while
`predict(Xn) = np.matmul(Xn, coef_) + intercept_` (line 797) uses the
whole `p × h` matrix `coef_ = B`, returning `h` columns. -/

/-- `intercept_ = sps.trim_mean(y - np.matmul(X0, bi), trimming)`
(line 742) for the default `center='mean'` with `trimming = 0`:
scipy's `trim_mean` with zero proportion-to-cut is the arithmetic
mean. -/
def interceptOf {α : Type*} [LinearOrderedField α] (X : List (List α))
    (ys bi : List α) (n : ℕ) : α :=
  (vSub ys (matVecCols X bi n)).sum / (n : α)

/-- `fitted_ = np.matmul(X0, bi) + intercept` (line 745), where after
the loop `bi` equals the last stored column `B[:, h-1]` (for `h = 0`
it is the zero vector initialised on line 518). -/
def fittedOf {α : Type*} [LinearOrderedField α] (X B : List (List α))
    (intercept : α) (h p n : ℕ) : List α :=
  (matVecCols X (B.getD (h - 1) (List.replicate p 0)) n).map (· + intercept)

/-- `predict(Xn) = np.matmul(Xn, coef_) + intercept_` (line 797),
columnwise: column `k` is `Xn·B[:,k] + intercept`. -/
def predictCols {α : Type*} [LinearOrderedField α] (Xn B : List (List α))
    (intercept : α) (n : ℕ) : List (List α) :=
  B.map (fun bc => (matVecCols Xn bc n).map (· + intercept))

theorem fitLoop_B_length {α : Type*} [LinearOrderedField α] (cfg : PPCfg α)
    (X : List (List α)) (ys : List α) (pinvF : List (List α) → List (List α))
    (h p n : ℕ) : (fitLoop cfg X ys pinvF h p n).B.length = h := by
  induction h with
  | zero => simp [fitLoop]
  | succ m ih =>
      rw [fitLoop_succ]
      simp only [fitStep]
      simp [ih]

/-- C10 (amended): on the training data, column `h-1` of
`X0·coef_ + intercept_` equals `fitted_` (which is built from the last
coefficient column only); the full product has `h` columns and equals
`fitted_` outright only when `h = 1`. -/
theorem predict_last_column_eq_fitted (cfg : PPCfg ℝ) (X : List (List ℝ))
    (ys : List ℝ) (pinvF : List (List ℝ) → List (List ℝ)) (h p n : ℕ)
    (intercept : ℝ) (hh : 0 < h) :
    (predictCols X (fitLoop cfg X ys pinvF h p n).B intercept n).getD (h - 1) []
      = fittedOf X (fitLoop cfg X ys pinvF h p n).B intercept h p n := by
  have hlen : (fitLoop cfg X ys pinvF h p n).B.length = h :=
    fitLoop_B_length cfg X ys pinvF h p n
  have hlt : h - 1 < (fitLoop cfg X ys pinvF h p n).B.length := by omega
  rw [predictCols, fittedOf]
  rw [List.getD_eq_getElem _ _ (by simpa using hlt), List.getElem_map]
  rw [List.getD_eq_getElem _ _ hlt]

/-- Witness for `predict_last_column_eq_fitted` at a concrete input. -/
theorem predict_last_column_eq_fitted_witness :
    0 < 1 ∧
    (predictCols []
        (fitLoop (cexCfgAt Real.cos Real.sin Real.sqrt 0 0 0 0) [] [] (fun M => M)
          1 0 0).B 0 0).getD 0 []
      = fittedOf []
          (fitLoop (cexCfgAt Real.cos Real.sin Real.sqrt 0 0 0 0) [] [] (fun M => M)
            1 0 0).B 0 1 0 0 :=
  ⟨by decide,
   predict_last_column_eq_fitted (cexCfgAt Real.cos Real.sin Real.sqrt 0 0 0 0)
    [] [] (fun M => M) 1 0 0 0 (by decide)⟩

/-! ## C10 counterexample fixture: a two-component two-block fit

`p = n = 2`, `X` with columns `[1,0]` and `[0,1]`, `y = [2,3]`,
`ndir = 2` (so the open grid over `[0, π)` is `{0, π/2}` and the
candidates are `(1,0)` and `(0,1)`), default `maxiter = 10000` with
`maxiter_2j = 2**round(log2 10000) = 8192` (unused on the `p = 2`
path), `center_data=False`, `regopt='OLS'`, and the user-supplied
projection index "second coordinate of the score column".  The only
matrices handed to the pseudo-inverse collaborator in this run are
`[[1]]` and the 2×2 identity, which are their own Moore–Penrose
pseudo-inverses, so `pinvF = id` is exact here. -/

def p2Cfg (c s r : ℝ → ℝ) (a1 b1 a2 b2 : ℝ) : PPCfg ℝ where
  cosf := c
  sinf := s
  sqrtf := r
  pindex := fun v => v.getD 1 0
  pindexQ := fun v _ => v.getD 1 0
  squarePi := false
  optmax := 1
  aOpen := a1
  bOpen := b1
  aClosed := a2
  bClosed := b2
  ndir := 2
  maxiter := 10000
  m2j := 8192
  constraintNorm := true

theorem p2_gpWin_first (a2 b2 : ℝ) :
    gpWin (p2Cfg Real.cos Real.sin Real.sqrt 0 Real.pi a2 b2)
      [((1 : ℝ), 0), (0, 1)] = ((0, 1), 1) := by
  have hr2 : List.range 2 = [0, 1] := rfl
  norm_num [gpWin, gridplane, gridSelect, angleGrid, piMeas, projCol, linspace,
    npMax, firstIdxEq, p2Cfg, hr2, max_def]

theorem p2_gpWin_second (a2 b2 : ℝ) :
    gpWin (p2Cfg Real.cos Real.sin Real.sqrt 0 Real.pi a2 b2)
      [((1 : ℝ), 0), ((0 : ℝ), 0)] = ((1, 0), 0) := by
  have hr2 : List.range 2 = [0, 1] := rfl
  norm_num [gpWin, gridplane, gridSelect, angleGrid, piMeas, projCol, linspace,
    npMax, firstIdxEq, p2Cfg, hr2, max_def]

theorem p2_fitStep_first :
    fitStep (p2Cfg Real.cos Real.sin Real.sqrt 0 Real.pi (-(Real.pi / 2)) (Real.pi / 2))
      [2, 3] (fun M => M) 2 2 ⟨[[(1 : ℝ), 0], [0, 1]], [], [], [], [], [], 0, 0⟩
      = ⟨[[1, 0], [0, 0]], [[0, 1]], [[0, 1]], [[0, 1]], [3], [[0, 3]], 1, 0⟩ := by
  have hr2 : List.range 2 = [0, 1] := rfl
  have hr1 : List.range 1 = [0] := rfl
  have hrep : List.replicate 2 (0 : ℝ) = [0, 0] := rfl
  have hd : componentDirection
      (p2Cfg Real.cos Real.sin Real.sqrt 0 Real.pi (-(Real.pi / 2)) (Real.pi / 2))
      [[(1 : ℝ), 0], [0, 1]] 2 2 = ⟨[0, 1], 1, 1, 0⟩ := by
    simp only [componentDirection, if_pos rfl]
    rw [show (colD [[(1 : ℝ), 0], [0, 1]] 0).zip (colD [[(1 : ℝ), 0], [0, 1]] 1)
      = [((1 : ℝ), 0), ((0 : ℝ), 1)] from rfl, p2_gpWin_first]
    simp
  simp only [fitStep, hd]
  norm_num [matVecCols, loadingOf, deflateCols, rotationR, rotCol, colD, vAdd,
    vSub, vSmul, dotL, sumSq, hr1, hr2, hrep]

theorem p2_fitStep_second :
    fitStep (p2Cfg Real.cos Real.sin Real.sqrt 0 Real.pi (-(Real.pi / 2)) (Real.pi / 2))
      [2, 3] (fun M => M) 2 2
      ⟨[[(1 : ℝ), 0], [0, 0]], [[0, 1]], [[0, 1]], [[0, 1]], [3], [[0, 3]], 1, 0⟩
      = ⟨[[0, 0], [0, 0]], [[0, 1], [1, 0]], [[0, 1], [1, 0]], [[0, 1], [1, 0]],
          [3, 2], [[0, 3], [2, 3]], 2, 0⟩ := by
  have hr2 : List.range 2 = [0, 1] := rfl
  have hrep : List.replicate 2 (0 : ℝ) = [0, 0] := rfl
  have hd : componentDirection
      (p2Cfg Real.cos Real.sin Real.sqrt 0 Real.pi (-(Real.pi / 2)) (Real.pi / 2))
      [[(1 : ℝ), 0], [0, 0]] 2 2 = ⟨[1, 0], 0, 1, 0⟩ := by
    simp only [componentDirection, if_pos rfl]
    rw [show (colD [[(1 : ℝ), 0], [0, 0]] 0).zip (colD [[(1 : ℝ), 0], [0, 0]] 1)
      = [((1 : ℝ), 0), ((0 : ℝ), 0)] from rfl, p2_gpWin_second]
    simp
  simp only [fitStep, hd]
  norm_num [matVecCols, loadingOf, deflateCols, rotationR, rotCol, colD, vAdd,
    vSub, vSmul, dotL, sumSq, hr2, hrep]

/-- C10 (counterexample): in the `h = 2` fitted model of the fixture
run, `coef_ = [[0,3],[2,3]]` (columns), `intercept_ = 0` and
`fitted_ = [2,3]`, but column 0 of `X0·coef_ + intercept_` is
`[0,3] ≠ fitted_`: the training matrix times `coef_` plus `intercept_`
is an `n × h` matrix that does not equal the `fitted_` attribute. -/
theorem predict_not_fitted_two_components :
    (fitLoop (p2Cfg Real.cos Real.sin Real.sqrt 0 Real.pi (-(Real.pi / 2)) (Real.pi / 2))
        [[(1 : ℝ), 0], [0, 1]] [2, 3] (fun M => M) 2 2 2).B = [[0, 3], [2, 3]]
    ∧ interceptOf [[(1 : ℝ), 0], [0, 1]] [2, 3] [2, 3] 2 = 0
    ∧ fittedOf [[(1 : ℝ), 0], [0, 1]] [[0, 3], [2, 3]] 0 2 2 2 = [2, 3]
    ∧ (predictCols [[(1 : ℝ), 0], [0, 1]] [[0, 3], [2, 3]] 0 2).getD 0 [] = [0, 3]
    ∧ (predictCols [[(1 : ℝ), 0], [0, 1]] [[0, 3], [2, 3]] 0 2).getD 0 []
        ≠ fittedOf [[(1 : ℝ), 0], [0, 1]] [[0, 3], [2, 3]] 0 2 2 2 := by
  have hr2 : List.range 2 = [0, 1] := rfl
  have hrep : List.replicate 2 (0 : ℝ) = [0, 0] := rfl
  have hloop : fitLoop
      (p2Cfg Real.cos Real.sin Real.sqrt 0 Real.pi (-(Real.pi / 2)) (Real.pi / 2))
      [[(1 : ℝ), 0], [0, 1]] [2, 3] (fun M => M) 2 2 2
      = ⟨[[0, 0], [0, 0]], [[0, 1], [1, 0]], [[0, 1], [1, 0]], [[0, 1], [1, 0]],
          [3, 2], [[0, 3], [2, 3]], 2, 0⟩ := by
    rw [show (2 : ℕ) = 0 + 1 + 1 from rfl, fitLoop_succ, fitLoop_succ]
    rw [show fitLoop
        (p2Cfg Real.cos Real.sin Real.sqrt 0 Real.pi (-(Real.pi / 2)) (Real.pi / 2))
        [[(1 : ℝ), 0], [0, 1]] [2, 3] (fun M => M) 0 2 2
        = ⟨[[(1 : ℝ), 0], [0, 1]], [], [], [], [], [], 0, 0⟩ from by simp [fitLoop]]
    rw [p2_fitStep_first, p2_fitStep_second]
  have hfit : fittedOf [[(1 : ℝ), 0], [0, 1]] [[0, 3], [2, 3]] 0 2 2 2 = [2, 3] := by
    norm_num [fittedOf, matVecCols, colD, vAdd, vSmul, hr2, hrep]
  have hpred : (predictCols [[(1 : ℝ), 0], [0, 1]] [[0, 3], [2, 3]] 0 2).getD 0 []
      = [0, 3] := by
    norm_num [predictCols, matVecCols, colD, vAdd, vSmul, hr2, hrep]
  refine ⟨by rw [hloop], ?_, hfit, hpred, ?_⟩
  · norm_num [interceptOf, matVecCols, vSub, colD, vAdd, vSmul, hr2, hrep]
  · rw [hpred, hfit]
    norm_num

/-! ## C2: the unresolved name `dicomo` in `fit`

The import `from .dicomo import dicomo` on line 12 is commented out,
and no other statement binds `dicomo`; yet line 394 evaluates
`self.projection_index == dicomo` unconditionally after the argument
collection of lines 317–392 (in which no statement can raise).
Python's name lookup for `dicomo` therefore fails with `NameError`
before anything after line 394 — in particular the component
extraction loop of line 573 — can run. -/

/-- Names bound at module scope of `ppdire.py` when `fit` would run:
the imports of lines 13–23 (line 12, the `dicomo` import, is commented
out), the module-level `MyException` class (line 25) and the `ppdire`
class (line 28). -/
def moduleBindings : List String :=
  ["np", "QuantReg", "sps", "pinv2", "copy", "_BaseComposition",
   "RegressorMixin", "BaseEstimator", "TransformerMixin", "svd_flip",
   "rm", "robcent", "MyException", "warnings", "ppdire"]

/-- Python builtins referenced inside `fit`. -/
def builtinBindings : List String :=
  ["len", "min", "max", "print", "range", "setattr", "abs", "round",
   "float", "str"]

/-- Python exceptions raised by the modelled code paths. -/
inductive PyExc
  | nameError (name : String)
  | myException (msg : String)
  deriving Repr, DecidableEq

/-- The optional keyword arguments `fit` inspects before line 394
(`y` is represented by its presence only). -/
structure FitKwargs where
  biascorr : Option Bool := none
  h : Option ℕ := none
  dmetric : Option String := none
  ndir : Option ℕ := none
  maxiter : Option ℕ := none
  compression : Option Bool := none
  mixing : Option Bool := none
  y : Bool := false
  regopt : Option String := none

/-- The local bindings `fit` has collected when control reaches the
`self.projection_index == dicomo` comparison of line 394. -/
structure FitLocals where
  biascorr : Bool
  h : ℕ
  dmetric : String
  ndir : ℕ
  maxiter : ℕ
  compression : Bool
  mixing : Bool
  flag : String
  regopt : String

/-- Argument collection of lines 317–392: defaults
`biascorr=False`, `h=self.n_components`, `dmetric='euclidean'`,
`ndir=1000`, `maxiter=10000`, `compression=False`, `mixing=False`,
`regopt='OLS'`, and the one-block/two-block flag.  No statement in
this range can raise. -/
def fitCollect (nComponents : ℕ) (k : FitKwargs) (nPosArgs : ℕ) : FitLocals where
  biascorr := k.biascorr.getD false
  h := k.h.getD nComponents
  dmetric := k.dmetric.getD "euclidean"
  ndir := k.ndir.getD 1000
  maxiter := k.maxiter.getD 10000
  compression := k.compression.getD false
  mixing := k.mixing.getD false
  flag := if k.y || decide (0 < nPosArgs) then "two-block" else "one-block"
  regopt := k.regopt.getD "OLS"

/-- The prefix of `fit` up to the evaluation of the global name
`dicomo` on line 394: the name resolves neither in the module scope
nor among the builtins, so Python raises `NameError` there; on the
(unreachable) success branch the collected locals would be handed to
the rest of the body. -/
def fitStart (nComponents : ℕ) (k : FitKwargs) (nPosArgs : ℕ) :
    Except PyExc FitLocals :=
  if "dicomo" ∈ moduleBindings ∨ "dicomo" ∈ builtinBindings then
    Except.ok (fitCollect nComponents k nPosArgs)
  else
    Except.error (PyExc.nameError "dicomo")

/-- C2: every invocation of `fit` raises `NameError` for the unbound
name `dicomo` at line 394, before any component is extracted,
regardless of the arguments and the projection index supplied. -/
theorem fit_always_raises_nameerror (nComponents : ℕ) (k : FitKwargs)
    (nPosArgs : ℕ) :
    fitStart nComponents k nPosArgs = Except.error (PyExc.nameError "dicomo") := by
  have hnot : ¬("dicomo" ∈ moduleBindings ∨ "dicomo" ∈ builtinBindings) := by
    decide
  rw [fitStart, if_neg hnot]

/-! ## C8: the dimensionality precondition

`fit`'s body past the line-394 blocker (see C2): after the deep copy
of the input (lines 410–415, `X0 = copy.deepcopy(X)` followed by a
fresh `np.array(...).astype('float64')` — both leave the caller's
array untouched) and the shape read `n, p = X.shape` (line 416), the
guard of lines 420–421 raises `MyException` before the preprocessing,
centring, and extraction stages execute. -/

/-- The dimension check and, on success, the extraction pipeline.  The
pipeline deflates the internal copy `E` only (lines 515 and 691); the
caller's `X` is never written. -/
def fitCore {α : Type*} [LinearOrderedField α] (cfg : PPCfg α)
    (X : List (List α)) (ys : List α)
    (pinvF : List (List α) → List (List α)) (h n : ℕ) :
    Except PyExc (FitAcc α) :=
  let p := X.length
  if h > min n p then
    Except.error (PyExc.myException
      "number of components cannot exceed number of samples")
  else
    Except.ok (fitLoop cfg X ys pinvF h p n)

/-- C8: when the requested component count exceeds `min(n, p)`, the
fit body fails with the dimensionality error before the extraction
pipeline is entered; the caller's data matrix is only read by the
steps preceding the check (the model never writes it: the source's
deflation acts on the deep copy `E`). -/
theorem dimension_check_fails_fast (cfg : PPCfg ℝ) (X : List (List ℝ))
    (ys : List ℝ) (pinvF : List (List ℝ) → List (List ℝ)) (h n : ℕ)
    (hdim : h > min n X.length) :
    fitCore cfg X ys pinvF h n
      = Except.error (PyExc.myException
          "number of components cannot exceed number of samples") := by
  simp only [fitCore]
  rw [if_pos hdim]

/-- Witness for `dimension_check_fails_fast` at a concrete input. -/
theorem dimension_check_fails_fast_witness :
    2 > min 1 ([[(0 : ℝ)], [0]]).length ∧
    fitCore (cexCfgAt Real.cos Real.sin Real.sqrt 0 0 0 0) [[(0 : ℝ)], [0]] []
        (fun M => M) 2 1
      = Except.error (PyExc.myException
          "number of components cannot exceed number of samples") :=
  ⟨by decide,
   dimension_check_fails_fast (cexCfgAt Real.cos Real.sin Real.sqrt 0 0 0 0)
    [[(0 : ℝ)], [0]] [] (fun M => M) 2 1 (by decide)⟩

end Ppdire
